import Mathlib

/-!
# Verification of the snack-counter core (room resolver, state store)

Shallow embedding of the server's core logic:

* `getDataFileKey` — the room resolver's sanitisation (`server.js`,
  `getDataFile`): every character outside `[A-Za-z0-9_-]` is replaced by `_`.
* `LogEntry`, `RoomState`, `incrementStep`, `deleteStep` — the in-memory
  mutation logic of `POST /api/increment` and `DELETE /api/log/:id`.
  Time is passed explicitly (`now`, epoch milliseconds as an integer);
  JavaScript numbers are modelled as `Int` (the program only ever stores
  integer counts and timestamps in these fields).
* `JVal`, `FS`, `writeData`, `readData` — the persistence layer
  (`writeData`, `readData`, `initializeData`, `tryRestoreFromBackup`).
  A file's content is modelled as either a parseable JSON value (`good v`)
  or unreadable/unparseable bytes (`corrupt`); I/O faults of the individual
  `fs` calls are injected through a `Faults` record.
-/

namespace SnackCounter

/-! ## Room resolver (`getDataFile` sanitisation) -/

/-- Character class `[a-zA-Z0-9-_]` of the sanitising regular expression. -/
def allowedChar (c : Char) : Bool :=
  (('a' ≤ c && c ≤ 'z') || ('A' ≤ c && c ≤ 'Z') || ('0' ≤ c && c ≤ '9')
    || c = '-' || c = '_')

/-- One step of `accessCode.replace(/[^a-zA-Z0-9-_]/g, '_')`. -/
def sanitizeChar (c : Char) : Char :=
  if allowedChar c then c else '_'

/-- `getDataFile`'s sanitisation of the access code: replace every character
outside `[a-zA-Z0-9-_]` with `_`. -/
def sanitizeCode (s : String) : String :=
  ⟨s.data.map sanitizeChar⟩

/-- The per-room canonical document name (`counter-data-<sanitized>.json`);
the directory prefix added by `path.join` is irrelevant to the claims and
omitted. -/
def dataFileName (accessCode : String) : String :=
  "counter-data-" ++ sanitizeCode accessCode ++ ".json"

/-! ## JavaScript helpers used by the mutation logic -/

/-- `parseInt` on the strings this program feeds it: skip leading
whitespace, an optional sign, then a maximal run of decimal digits; `none`
models JavaScript's `NaN` result when no digits are found. (The radix
prefixes of full `parseInt` never arise for these inputs.) -/
def parseIntDigits : List Char → Option Nat → Option Nat
  | [], acc => acc
  | c :: cs, acc =>
    if c.isDigit then
      parseIntDigits cs (some ((acc.getD 0) * 10 + (c.toNat - '0'.toNat)))
    else acc

/-- JavaScript `parseInt(s)` (decimal), as used on log-entry ids. -/
def parseIntJS (s : String) : Option Int :=
  let cs := s.data.dropWhile (fun c => c = ' ' || c = '\t' || c = '\n' || c = '\r')
  match cs with
  | '-' :: rest => (parseIntDigits rest none).map (fun n => -(n : Int))
  | '+' :: rest => (parseIntDigits rest none).map (fun n => (n : Int))
  | rest => (parseIntDigits rest none).map (fun n => (n : Int))

/-- `Math.ceil(a / b)` for integer `a` and positive integer `b` (the program
only divides by `1000`); exact for the magnitudes involved. -/
def jsCeilDiv (a b : Int) : Int :=
  -((-a) / b)

/-- `x || 'Anonymous'`: the actor label, `undefined` (`none`) and the empty
string being falsy. -/
def actorOrAnonymous (actor : Option String) : String :=
  match actor with
  | some u => if u = "" then "Anonymous" else u
  | none => "Anonymous"

/-- `new Date(now).toLocaleString()`, abstracted as an (injective) rendering
of the clock value; no claim inspects the human-readable text. -/
def toLocaleString (now : Int) : String :=
  toString now

/-! ## In-memory room state and the two mutating endpoints -/

/-- One activity-log record as created by `POST /api/increment`. -/
structure LogEntry where
  id : String
  timestamp : String
  count : Int
  username : String
  deriving DecidableEq, Repr

/-- The mutable per-room fields touched by increment/delete
(`accessCode` and `pushSubscriptions` are carried by the persistence layer
below and never read by these two endpoints). -/
structure RoomState where
  count : Int
  log : List LogEntry
  lastIncrementTime : Int
  deriving DecidableEq, Repr

/-- `RATE_LIMIT_MS = 20000` (20 seconds). -/
def RATE_LIMIT_MS : Int := 20000

/-- Outcome of `POST /api/increment`: HTTP 429 with `remainingTime`, or
HTTP 200 with the updated state. -/
inductive IncOutcome where
  | rateLimited (remainingTime : Int)
  | ok (state : RoomState)
  deriving DecidableEq, Repr

/-- Outcome of `DELETE /api/log/:id`: HTTP 404, or HTTP 200 with the
updated state. -/
inductive DelOutcome where
  | notFound
  | ok (state : RoomState)
  deriving DecidableEq, Repr

/-- Numeric sort key of a log entry: `parseInt(entry.id)`. The program only
sorts entries whose ids it created as stringified integers; an unparseable
id (JavaScript `NaN`) is represented by `0` and excluded by the theorems'
hypotheses. -/
def idVal (e : LogEntry) : Int :=
  (parseIntJS e.id).getD 0

/-- Comparator of `[...data.log].sort((a, b) => parseInt(b.id) - parseInt(a.id))`:
`a` precedes `b` when its parsed id is at least `b`'s (descending order). -/
def idGE (a b : LogEntry) : Prop :=
  idVal b ≤ idVal a

instance : DecidableRel idGE := fun _ _ => inferInstanceAs (Decidable (_ ≤ _))

instance : IsTotal LogEntry idGE := ⟨fun a b => (le_total (idVal b) (idVal a)).imp id id⟩

instance : IsTrans LogEntry idGE := ⟨fun _ _ _ h1 h2 => le_trans h2 h1⟩

/-- The sorted copy `[...data.log].sort(...)` (descending by parsed id;
JavaScript's sort is stable, as is insertion sort). -/
def sortByIdDesc (l : List LogEntry) : List LogEntry :=
  l.insertionSort idGE

/-- `POST /api/increment` on a loaded state: rate-limit check, then
count/log/lastIncrementTime update and truncation to 20 entries. The first
component is the room's canonical state after the request (unchanged when
the request is rejected, the freshly persisted state on success). -/
def incrementStep (now : Int) (actor : Option String) (s : RoomState) :
    RoomState × IncOutcome :=
  let timeSinceLastIncrement := now - s.lastIncrementTime
  if timeSinceLastIncrement < RATE_LIMIT_MS then
    (s, .rateLimited (jsCeilDiv (RATE_LIMIT_MS - timeSinceLastIncrement) 1000))
  else
    let count' := s.count + 1
    let entry : LogEntry :=
      { id := toString now
        timestamp := toLocaleString now
        count := count'
        username := actorOrAnonymous actor }
    let log' := entry :: s.log
    let log'' := if log'.length > 20 then log'.take 20 else log'
    let s' : RoomState := { count := count', log := log'', lastIncrementTime := now }
    (s', .ok s')

/-- `DELETE /api/log/:id` on a loaded state: find the first entry with the
given id (`findIndex`), remove it (`splice`), recompute `count` from the log
length and `lastIncrementTime` from the sorted copy's head. The first
component is the room's canonical state after the request. -/
def deleteStep (logId : String) (s : RoomState) : RoomState × DelOutcome :=
  match s.log.findIdx? (fun e => e.id = logId) with
  | none => (s, .notFound)
  | some i =>
    let log' := s.log.eraseIdx i
    let count' : Int := log'.length
    let lastIncrementTime' : Int :=
      if log'.length > 0 then
        match sortByIdDesc log' with
        | e :: _ => idVal e
        | [] => 0
      else 0
    let s' : RoomState := { count := count', log := log', lastIncrementTime := lastIncrementTime' }
    (s', .ok s')

/-! ## Persistence layer: JSON documents, the file store, `writeData`/`readData` -/

/-- A JSON-ish JavaScript value as handled by `JSON.parse`/`JSON.stringify`
(numbers are modelled as integers: the program only stores integer counts
and epoch-millisecond timestamps; `jundef` is JavaScript `undefined`, the
result of reading an absent property). -/
inductive JVal where
  | jnull
  | jundef
  | jbool (b : Bool)
  | jnum (n : Int)
  | jstr (s : String)
  | jarr (elems : List JVal)
  | jobj (fields : List (String × JVal))

namespace JVal

/-- JavaScript truthiness (`!x` is its negation). -/
def truthy : JVal → Bool
  | jnull => false
  | jundef => false
  | jbool b => b
  | jnum n => n ≠ 0
  | jstr s => s ≠ ""
  | jarr _ => true
  | jobj _ => true

/-- `typeof x === 'object'` (true for `null`, arrays and plain objects). -/
def typeofObject : JVal → Bool
  | jnull => true
  | jarr _ => true
  | jobj _ => true
  | _ => false

/-- A non-null object in the sense of the specification's `InvalidState`
condition: an array or a plain object. -/
def isNonNullObject : JVal → Bool
  | jarr _ => true
  | jobj _ => true
  | _ => false

/-- First binding of a name in an object's field list. -/
def lookupField : List (String × JVal) → String → Option JVal
  | [], _ => none
  | (k, v) :: rest, name => if k = name then some v else lookupField rest name

/-- Property read `v[name]`: `undefined` when absent; the program only
reads named properties off plain objects. -/
def getField (v : JVal) (name : String) : JVal :=
  match v with
  | jobj fields =>
    match lookupField fields name with
    | some w => w
    | none => jundef
  | _ => jundef

/-- Association-list update preserving field order, appending when absent. -/
def setFields (fields : List (String × JVal)) (name : String) (w : JVal) :
    List (String × JVal) :=
  match fields with
  | [] => [(name, w)]
  | (k, v) :: rest =>
    if k = name then (k, w) :: rest else (k, v) :: setFields rest name w

/-- Property write `v[name] = w`. Assignment to a non-object target is
unrepresentable here and left as the identity; the endpoints only ever
assign to parsed documents that passed the object check, and the theorems
below never exercise the array case. -/
def setField (v : JVal) (name : String) (w : JVal) : JVal :=
  match v with
  | jobj fields => jobj (setFields fields name w)
  | other => other

/-- `typeof v === 'number'`. -/
def isNum : JVal → Bool
  | jnum _ => true
  | _ => false

/-- `Array.isArray(v)`. -/
def isArr : JVal → Bool
  | jarr _ => true
  | _ => false

/-- `typeof v === 'string'`. -/
def isStr : JVal → Bool
  | jstr _ => true
  | _ => false

end JVal

open JVal

/-- The bytes of one file: a parseable JSON document, or content on which
`readFileSync`/`JSON.parse` throws (unreadable or malformed). `writeFileSync`
of `JSON.stringify(v)` always produces `good v`. -/
inductive JContent where
  | good (v : JVal)
  | corrupt

/-- The data directory: an association list from file name to content
(first binding wins). -/
abbrev FS : Type := List (String × JContent)

namespace FS

/-- `fs.existsSync` / `fs.readFileSync` combined: the content if present. -/
def read : FS → String → Option JContent
  | [], _ => none
  | (k, c) :: rest, name => if k = name then some c else read rest name

/-- Remove a file (`fs.unlinkSync`). -/
def remove : FS → String → FS
  | [], _ => []
  | (k, c) :: rest, name =>
    if k = name then remove rest name else (k, c) :: remove rest name

/-- Create or overwrite a file. -/
def write (fs : FS) (name : String) (c : JContent) : FS :=
  (name, c) :: remove fs name

theorem read_remove (fs : FS) (n m : String) :
    (fs.remove n).read m = if m = n then none else fs.read m := by
  induction fs with
  | nil => simp [remove, read]
  | cons p rest ih =>
    obtain ⟨k, c⟩ := p
    simp only [remove]
    by_cases hkn : k = n
    · subst hkn
      rw [if_pos rfl, ih]
      by_cases hmn : m = k
      · simp [read, hmn]
      · simp [read, hmn, if_neg (Ne.symm hmn)]
    · rw [if_neg hkn]
      simp only [read]
      by_cases hkm : k = m
      · subst hkm
        rw [if_pos rfl, if_pos rfl, if_neg hkn]
      · rw [if_neg hkm, if_neg hkm, ih]

theorem read_write (fs : FS) (n : String) (c : JContent) (m : String) :
    (fs.write n c).read m = if m = n then some c else fs.read m := by
  by_cases hmn : m = n
  · subst hmn
    simp [write, read]
  · simp only [write, read, if_neg (Ne.symm hmn), if_neg hmn, read_remove]

end FS

/-- Injected environment faults: whether `fs.copyFileSync` (backup),
`fs.writeFileSync` (temp file) and `fs.renameSync` throw. A faulting write
leaves the target untouched. `fs.unlinkSync` of the temp file is taken to
succeed (the code would swallow even that failure). -/
structure Faults where
  backupFails : Bool
  writeTmpFails : Bool
  renameFails : Bool
  deriving DecidableEq, Repr

/-- The fault-free environment. -/
def noFaults : Faults := ⟨false, false, false⟩

/-- Errors surfaced by the persistence layer: the `Invalid data structure`
validation throw, or an injected I/O failure. -/
inductive WriteError where
  | invalidState
  | ioError
  deriving DecidableEq, Repr

/-- The `catch` block of `writeData`: delete the temp file if it exists
(before re-throwing). -/
def cleanupTmp (fs : FS) (tmpFile : String) : FS :=
  if (fs.read tmpFile).isSome then fs.remove tmpFile else fs

/-- `writeData(accessCode, data)`: validate, back up the current document if
present, write the new document to `<doc>.tmp`, atomically rename it over
the canonical path; on any throw, remove the temp file and re-throw. -/
def writeData (f : Faults) (accessCode : String) (data : JVal) (fs : FS) :
    FS × Except WriteError Unit :=
  let dataFile := dataFileName accessCode
  let tmpFile := dataFile ++ ".tmp"
  let backupFile := dataFile ++ ".backup"
  if ¬ (data.truthy && data.typeofObject) then
    (cleanupTmp fs tmpFile, .error .invalidState)
  else
    match fs.read dataFile with
    | some current =>
      if f.backupFails then (cleanupTmp fs tmpFile, .error .ioError)
      else
        let fs1 := fs.write backupFile current
        if f.writeTmpFails then (cleanupTmp fs1 tmpFile, .error .ioError)
        else
          let fs2 := fs1.write tmpFile (.good data)
          if f.renameFails then (cleanupTmp fs2 tmpFile, .error .ioError)
          else ((fs2.remove tmpFile).write dataFile (.good data), .ok ())
    | none =>
      if f.writeTmpFails then (cleanupTmp fs tmpFile, .error .ioError)
      else
        let fs2 := fs.write tmpFile (.good data)
        if f.renameFails then (cleanupTmp fs2 tmpFile, .error .ioError)
        else ((fs2.remove tmpFile).write dataFile (.good data), .ok ())

/-- The fresh document built by `initializeData` for a room. -/
def initialDoc (accessCode : String) : JVal :=
  .jobj [("accessCode", .jstr accessCode), ("count", .jnum 0), ("log", .jarr []),
         ("lastIncrementTime", .jnum 0), ("pushSubscriptions", .jarr [])]

/-- `initializeData(accessCode)`: build the fresh document, persist it
(propagating any persistence failure), return it. -/
def initializeData (f : Faults) (accessCode : String) (fs : FS) :
    FS × Except WriteError JVal :=
  match writeData f accessCode (initialDoc accessCode) fs with
  | (fs', .ok _) => (fs', .ok (initialDoc accessCode))
  | (fs', .error e) => (fs', .error e)

/-- `tryRestoreFromBackup(accessCode)`: the parsed backup document if it
exists and parses, otherwise `null` (its internal `catch` swallows parse
failures). -/
def tryRestoreFromBackup (accessCode : String) (fs : FS) : Option JVal :=
  match fs.read (dataFileName accessCode ++ ".backup") with
  | some (.good v) => some v
  | _ => none

/-- One repair statement of `readData`, e.g.
`if (typeof parsed.count !== 'number') parsed.count = 0;`:
replace the named field by its default unless it passes the type check. -/
def coerceField (v : JVal) (name : String) (ok : JVal → Bool) (dflt : JVal) : JVal :=
  if ¬ ok (v.getField name) then v.setField name dflt else v

/-- The field-by-field repair of `readData`: each required field whose type
check fails is replaced by its default, valid fields are left untouched. -/
def coerceFields (accessCode : String) (v : JVal) : JVal :=
  coerceField
    (coerceField
      (coerceField
        (coerceField
          (coerceField v "count" isNum (.jnum 0))
          "log" isArr (.jarr []))
        "lastIncrementTime" isNum (.jnum 0))
      "pushSubscriptions" isArr (.jarr []))
    "accessCode" isStr (.jstr accessCode)

/-- The `try` body of `readData`: initialise when the document is absent,
parse it (a `corrupt` read throws to the caller's `catch`), reinitialise
when the parsed value is not a truthy object, otherwise repair the required
fields. -/
def readDataTry (f : Faults) (accessCode : String) (fs : FS) :
    FS × Except WriteError JVal :=
  match fs.read (dataFileName accessCode) with
  | none => initializeData f accessCode fs
  | some .corrupt => (fs, .error .ioError)
  | some (.good parsed) =>
    if ¬ (parsed.truthy && parsed.typeofObject) then initializeData f accessCode fs
    else (fs, .ok (coerceFields accessCode parsed))

/-- `readData(accessCode)`: the `try` body above; on a throw, attempt
`tryRestoreFromBackup` and return its result only when truthy (the
`if (backupData)` guard: a backup parsing to `null`, `0`, `""` or `false`
is discarded like an absent one), falling back to `initializeData` (whose
own failure propagates to the caller). -/
def readData (f : Faults) (accessCode : String) (fs : FS) :
    FS × Except WriteError JVal :=
  match readDataTry f accessCode fs with
  | (fs', .ok v) => (fs', .ok v)
  | (fs', .error _) =>
    match tryRestoreFromBackup accessCode fs' with
    | some backup =>
      if backup.truthy then (fs', .ok backup) else initializeData f accessCode fs'
    | none => initializeData f accessCode fs'

/-- A well-typed persisted room state: a plain object whose five required
fields all pass `readData`'s type checks. -/
def isValidRoomDoc (v : JVal) : Bool :=
  match v with
  | .jobj _ =>
    (v.getField "count").isNum && (v.getField "log").isArr
      && (v.getField "lastIncrementTime").isNum
      && (v.getField "pushSubscriptions").isArr
      && (v.getField "accessCode").isStr
  | _ => false

/-! ## Helper lemmas -/

theorem allowedChar_underscore : allowedChar '_' = true := by decide

theorem sanitizeChar_allowed (c : Char) : allowedChar (sanitizeChar c) = true := by
  unfold sanitizeChar
  split
  · assumption
  · exact allowedChar_underscore

theorem sanitizeChar_of_allowed (c : Char) (h : allowedChar c = true) :
    sanitizeChar c = c := by
  simp [sanitizeChar, h]

theorem sanitizeCode_data (s : String) :
    (sanitizeCode s).data = s.data.map sanitizeChar := rfl

/-! ## C9: room resolver -/

/-- C9: the room resolver's sanitisation emits only characters of
`[A-Za-z0-9_-]`, replacing each character outside the class with `_`; it is
a pure function of its input and idempotent, fixing every already-canonical
key. -/
theorem sanitizeCode_spec (s : String) :
    (∀ c ∈ (sanitizeCode s).data, allowedChar c = true) ∧
    ((sanitizeCode s).data = s.data.map fun c => if allowedChar c then c else '_') ∧
    sanitizeCode (sanitizeCode s) = sanitizeCode s ∧
    ((∀ c ∈ s.data, allowedChar c = true) → sanitizeCode s = s) := by
  refine ⟨?_, rfl, ?_, ?_⟩
  · intro c hc
    rw [sanitizeCode_data, List.mem_map] at hc
    obtain ⟨a, -, rfl⟩ := hc
    exact sanitizeChar_allowed a
  · show (⟨(s.data.map sanitizeChar).map sanitizeChar⟩ : String) = ⟨s.data.map sanitizeChar⟩
    congr 1
    rw [List.map_map]
    refine List.map_congr_left fun a _ => ?_
    exact sanitizeChar_of_allowed _ (sanitizeChar_allowed a)
  · intro h
    cases s with
    | mk data =>
      show (⟨data.map sanitizeChar⟩ : String) = ⟨data⟩
      congr 1
      exact (List.map_congr_left fun a ha => sanitizeChar_of_allowed a (h a ha)).trans
        (List.map_id data)

/-- Witness for C9 at a concrete access code. -/
theorem sanitizeCode_spec_witness :
    sanitizeCode "room 1!" = "room_1_" ∧
    (∀ c ∈ (sanitizeCode "room 1!").data, allowedChar c = true) ∧
    sanitizeCode (sanitizeCode "room 1!") = sanitizeCode "room 1!" :=
  ⟨by decide, (sanitizeCode_spec "room 1!").1,
    (sanitizeCode_spec "room 1!").2.2.1⟩

/-! ## C3: rate-limited increment -/

/-- C3: when less than 20000 ms have elapsed since `lastIncrementTime`, the
increment endpoint rejects the request, leaving the room state untouched
(the returned canonical state is the input state, and no write happens),
and the reported remaining wait `r` satisfies the defining property of
`ceil((20000 - elapsed) / 1000)`: it is the unique integer with
`1000 * (r - 1) < 20000 - elapsed ≤ 1000 * r`. -/
theorem incrementStep_rateLimited_spec (now : Int) (actor : Option String)
    (s : RoomState) (h : now - s.lastIncrementTime < 20000) :
    ∃ r : Int,
      incrementStep now actor s = (s, .rateLimited r) ∧
      1000 * (r - 1) < 20000 - (now - s.lastIncrementTime) ∧
      20000 - (now - s.lastIncrementTime) ≤ 1000 * r := by
  have hlt : now - s.lastIncrementTime < RATE_LIMIT_MS := h
  refine ⟨jsCeilDiv (RATE_LIMIT_MS - (now - s.lastIncrementTime)) 1000, ?_, ?_, ?_⟩
  · simp [incrementStep, hlt]
  · unfold jsCeilDiv RATE_LIMIT_MS
    omega
  · unfold jsCeilDiv RATE_LIMIT_MS
    omega

/-- Witness for C3: an increment 5 ms after the last one is rejected with a
19-second wait. -/
theorem incrementStep_rateLimited_spec_witness :
    ∃ r : Int,
      incrementStep 1005 (some "bob") ⟨3, [], 1000⟩ = (⟨3, [], 1000⟩, .rateLimited r) ∧
      1000 * (r - 1) < 20000 - (1005 - (1000 : Int)) ∧
      20000 - (1005 - (1000 : Int)) ≤ 1000 * r :=
  incrementStep_rateLimited_spec 1005 (some "bob") ⟨3, [], 1000⟩ (by decide)

/-! ## C2: successful increment -/

/-- C2: when at least 20000 ms have elapsed, the increment endpoint bumps
the count, stamps `lastIncrementTime := now`, prepends a log entry whose id
is the stringified clock value, whose `count` is the new count and whose
`username` is the actor (the absent/empty actor rendering as "Anonymous"),
truncates the log to its newest 20 entries, and persists and returns
exactly that updated state. -/
theorem incrementStep_success_spec (now : Int) (actor : Option String)
    (s : RoomState) (h : 20000 ≤ now - s.lastIncrementTime) :
    ∃ s' : RoomState,
      incrementStep now actor s = (s', .ok s') ∧
      s'.count = s.count + 1 ∧
      s'.lastIncrementTime = now ∧
      s'.log = (⟨toString now, toLocaleString now, s.count + 1,
        actorOrAnonymous actor⟩ :: s.log).take 20 ∧
      s'.log.length = min (s.log.length + 1) 20 ∧
      (actor = none → actorOrAnonymous actor = "Anonymous") := by
  have hge : ¬ now - s.lastIncrementTime < RATE_LIMIT_MS := by
    unfold RATE_LIMIT_MS
    omega
  simp only [incrementStep, hge, if_false]
  refine ⟨_, rfl, rfl, rfl, ?_, ?_, ?_⟩
  · split
    · rfl
    · rw [List.take_of_length_le]
      omega
  · split <;> rename_i hcmp <;>
      simp only [List.length_cons] at hcmp <;>
      simp only [List.length_take, List.length_cons] <;> omega
  · rintro rfl
    rfl

/-- Witness for C2: a first increment at time 20000 from the fresh state. -/
theorem incrementStep_success_spec_witness :
    ∃ s' : RoomState,
      incrementStep 20000 none ⟨0, [], 0⟩ = (s', .ok s') ∧
      s'.count = 0 + 1 ∧
      s'.lastIncrementTime = 20000 ∧
      s'.log = (⟨toString (20000 : Int), toLocaleString 20000, 0 + 1,
        actorOrAnonymous none⟩ :: []).take 20 ∧
      s'.log.length = min (0 + 1) 20 ∧
      (none = (none : Option String) → actorOrAnonymous none = "Anonymous") := by
  have h := incrementStep_success_spec 20000 none ⟨0, [], 0⟩ (by decide)
  simpa using h

/-! ## C1: the count/log-length invariant -/

/-- The state a fresh room starts from (`initializeData`'s `count`, `log`,
`lastIncrementTime`). -/
def initialRoomState : RoomState := ⟨0, [], 0⟩

/-- Clock value of the `k`-th increment in the reference run: one request
every 20000 ms, starting 20000 ms after epoch. -/
def incTime (k : Nat) : Int := 20000 * ((k : Int) + 1)

/-- The reference run: `k` increment requests, 20 s apart, from the fresh
state (each one is accepted, as the counterexample theorem certifies). -/
def runIncrements : Nat → RoomState
  | 0 => initialRoomState
  | k + 1 => (incrementStep (incTime k) none (runIncrements k)).1

/-- Counterexample to C1: starting from the fresh room state, 21 increment
requests spaced 20 s apart are all accepted (each one is a successful
mutation), yet the resulting state has `count = 21` while the log was
truncated to 20 entries — so a state reached by a successful mutation
violates `count = length(log)`. -/
theorem increment_run_breaks_count_eq_length :
    (∀ k : Fin 21, (incrementStep (incTime k.1) none (runIncrements k.1)).2
      = .ok (runIncrements (k.1 + 1))) ∧
    (runIncrements 21).count = 21 ∧
    (runIncrements 21).log.length = 20 := by
  decide

/-- C1 amended: after a successful DeleteEntry the count always equals the
log length; after a successful Increment it does provided the pre-state
satisfied `count = length(log)` and its log held fewer than 20 entries
(once the log is at its 20-entry cap, truncation makes the count exceed
the log length). -/
theorem count_eq_log_length_after_mutation :
    (∀ (logId : String) (s t : RoomState),
      (deleteStep logId s).2 = .ok t → t.count = t.log.length) ∧
    (∀ (now : Int) (actor : Option String) (s t : RoomState),
      (incrementStep now actor s).2 = .ok t →
      s.count = s.log.length → s.log.length < 20 → t.count = t.log.length) := by
  constructor
  · intro logId s t h
    unfold deleteStep at h
    rcases hf : s.log.findIdx? fun e => e.id = logId with - | i
    · rw [hf] at h
      exact absurd h (by simp)
    · rw [hf] at h
      simp only [DelOutcome.ok.injEq] at h
      subst h
      rfl
  · intro now actor s t h hcl hlen
    have hge : ¬ now - s.lastIncrementTime < RATE_LIMIT_MS := by
      by_contra hc
      simp only [incrementStep, not_not.mp (not_not_intro hc), if_true] at h
      exact absurd h (by simp)
    simp only [incrementStep, hge, if_false, IncOutcome.ok.injEq] at h
    subst h
    show s.count + 1 = ((if _ > 20 then _ else _ : List LogEntry)).length
    split <;> rename_i hcmp <;> simp only [List.length_cons] at hcmp <;>
      simp only [List.length_take, List.length_cons, hcl] <;> omega

/-- Witness for the amended C1: deleting the newest of two entries and a
second spaced increment both re-establish `count = length(log)`. -/
theorem count_eq_log_length_after_mutation_witness :
    ((deleteStep "40000" ⟨2, [⟨"40000", "t2", 2, "a"⟩, ⟨"20000", "t1", 1, "a"⟩], 40000⟩).1.count
      = (deleteStep "40000" ⟨2, [⟨"40000", "t2", 2, "a"⟩, ⟨"20000", "t1", 1, "a"⟩], 40000⟩).1.log.length) ∧
    ((incrementStep 40000 none ⟨1, [⟨"20000", "t1", 1, "a"⟩], 20000⟩).1.count
      = (incrementStep 40000 none ⟨1, [⟨"20000", "t1", 1, "a"⟩], 20000⟩).1.log.length) :=
  ⟨count_eq_log_length_after_mutation.1 "40000"
      ⟨2, [⟨"40000", "t2", 2, "a"⟩, ⟨"20000", "t1", 1, "a"⟩], 40000⟩
      (deleteStep "40000" ⟨2, [⟨"40000", "t2", 2, "a"⟩, ⟨"20000", "t1", 1, "a"⟩], 40000⟩).1
      (by decide),
   count_eq_log_length_after_mutation.2 40000 none
      ⟨1, [⟨"20000", "t1", 1, "a"⟩], 20000⟩
      (incrementStep 40000 none ⟨1, [⟨"20000", "t1", 1, "a"⟩], 20000⟩).1
      (by decide) (by decide) (by decide)⟩

/-! ## C4 and C10: the delete endpoint -/

theorem head_sortByIdDesc_max (l : List LogEntry) (e : LogEntry)
    (rest : List LogEntry) (h : sortByIdDesc l = e :: rest) :
    e ∈ l ∧ ∀ x ∈ l, idVal x ≤ idVal e := by
  have hperm : List.Perm (sortByIdDesc l) l := List.perm_insertionSort idGE l
  have hsort : List.Sorted idGE (sortByIdDesc l) := List.sorted_insertionSort idGE l
  rw [h] at hperm hsort
  refine ⟨hperm.mem_iff.mp (List.mem_cons_self e rest), fun x hx => ?_⟩
  rcases List.mem_cons.mp (hperm.mem_iff.mpr hx) with rfl | hmem
  · exact le_refl _
  · exact List.rel_of_sorted_cons hsort x hmem

/-- C4: deleting an id no log entry carries returns NotFound with the state
untouched; deleting a present id removes a matching entry, recomputes the
count as the new log length, and recomputes `lastIncrementTime` as the
numeric value of the largest id remaining (by comparing parsed id values,
not positions), or 0 when the log becomes empty — the resulting state being
what is persisted and returned. (The parseability hypothesis keeps the
model inside the id strings the program itself creates, where JavaScript's
`parseInt` cannot yield `NaN`.) -/
theorem deleteStep_spec :
    (∀ (logId : String) (s : RoomState),
      (∀ e ∈ s.log, e.id ≠ logId) → deleteStep logId s = (s, .notFound)) ∧
    (∀ (logId : String) (s : RoomState),
      (∀ e ∈ s.log, (parseIntJS e.id).isSome) →
      (∃ e ∈ s.log, e.id = logId) →
      ∃ s', deleteStep logId s = (s', .ok s') ∧
        s'.count = s'.log.length ∧
        s'.log.length + 1 = s.log.length ∧
        (∃ i, ∃ hi : i < s.log.length,
          (s.log.get ⟨i, hi⟩).id = logId ∧ s'.log = s.log.eraseIdx i) ∧
        (s'.log = [] → s'.lastIncrementTime = 0) ∧
        (s'.log ≠ [] →
          (∀ e ∈ s'.log, idVal e ≤ s'.lastIncrementTime) ∧
          (∃ e ∈ s'.log, idVal e = s'.lastIncrementTime))) := by
  constructor
  · intro logId s h
    have hnone : s.log.findIdx? (fun e => e.id = logId) = none :=
      List.findIdx?_eq_none_iff.mpr fun x hx => by simp [h x hx]
    simp only [deleteStep, hnone]
  · intro logId s _ hex
    obtain ⟨x, hxmem, hxid⟩ := hex
    have hsome : s.log.findIdx? (fun e => e.id = logId)
        = some (s.log.findIdx (fun e => e.id = logId)) :=
      List.findIdx?_eq_some_of_exists ⟨x, hxmem, by simp [hxid]⟩
    obtain ⟨hlt, hpi, -⟩ := List.findIdx?_eq_some_iff_getElem.mp hsome
    simp only [deleteStep, hsome]
    set i := s.log.findIdx (fun e => e.id = logId) with hi
    refine ⟨_, rfl, rfl, ?_, ?_, ?_, ?_⟩
    · rw [List.length_eraseIdx_of_lt hlt]
      omega
    · exact ⟨i, hlt, by simpa using hpi, rfl⟩
    · intro hnil
      simp only at hnil
      rw [hnil]
      simp
    · intro hne
      simp only at hne
      have hpos : 0 < (s.log.eraseIdx i).length := List.length_pos.mpr hne
      simp only [gt_iff_lt, hpos, if_true]
      rcases hs : sortByIdDesc (s.log.eraseIdx i) with - | ⟨e, rest⟩
      · have := (List.perm_insertionSort idGE (s.log.eraseIdx i)).length_eq
        rw [show sortByIdDesc (s.log.eraseIdx i)
            = (s.log.eraseIdx i).insertionSort idGE from rfl] at hs
        rw [hs] at this
        simp at this
        omega
      · obtain ⟨hmem, hmax⟩ := head_sortByIdDesc_max _ _ _ hs
        exact ⟨hmax, e, hmem, rfl⟩

/-- Witness for C4: deleting the newest of three entries (ids 20000, 40000,
60000) and deleting an absent id. -/
theorem deleteStep_spec_witness :
    (deleteStep "99"
      ⟨3, [⟨"60000", "t3", 3, "a"⟩, ⟨"40000", "t2", 2, "a"⟩, ⟨"20000", "t1", 1, "a"⟩], 60000⟩
      = (⟨3, [⟨"60000", "t3", 3, "a"⟩, ⟨"40000", "t2", 2, "a"⟩, ⟨"20000", "t1", 1, "a"⟩], 60000⟩,
        .notFound)) ∧
    (∃ s', deleteStep "60000"
      ⟨3, [⟨"60000", "t3", 3, "a"⟩, ⟨"40000", "t2", 2, "a"⟩, ⟨"20000", "t1", 1, "a"⟩], 60000⟩
      = (s', .ok s') ∧
      s'.count = s'.log.length ∧
      s'.log.length + 1 = 3 ∧ s'.lastIncrementTime = 40000) := by
  constructor
  · exact deleteStep_spec.1 "99" _ (by decide)
  · obtain ⟨s', heq, hcount, hlen, -⟩ :=
      deleteStep_spec.2 "60000"
        ⟨3, [⟨"60000", "t3", 3, "a"⟩, ⟨"40000", "t2", 2, "a"⟩, ⟨"20000", "t1", 1, "a"⟩], 60000⟩
        (by decide) ⟨⟨"60000", "t3", 3, "a"⟩, by decide, rfl⟩
    refine ⟨s', heq, hcount, by simpa using hlen, ?_⟩
    have : s' = (deleteStep "60000"
        ⟨3, [⟨"60000", "t3", 3, "a"⟩, ⟨"40000", "t2", 2, "a"⟩, ⟨"20000", "t1", 1, "a"⟩],
          60000⟩).1 := by
      rw [heq]
    rw [this]
    decide

/-- C10: when two or more entries share the target id, delete removes
exactly one entry — the one nearest the front — and the count is still set
to the resulting log length. -/
theorem deleteStep_duplicate_id_spec (logId : String) (s : RoomState)
    (h2 : 2 ≤ (s.log.filter (fun e => e.id = logId)).length) :
    ∃ i, ∃ hi : i < s.log.length,
      s.log.findIdx? (fun e => e.id = logId) = some i ∧
      (s.log.get ⟨i, hi⟩).id = logId ∧
      (∀ j (hj : j < i), (s.log.get ⟨j, lt_trans hj hi⟩).id ≠ logId) ∧
      ∃ s', deleteStep logId s = (s', .ok s') ∧
        s'.log = s.log.eraseIdx i ∧
        s'.log.length + 1 = s.log.length ∧
        s'.count = s'.log.length := by
  have hne : s.log.filter (fun e => e.id = logId) ≠ [] := by
    intro hnil
    rw [hnil] at h2
    simp at h2
  obtain ⟨x, hx⟩ := List.exists_mem_of_ne_nil _ hne
  obtain ⟨hxmem, hxid⟩ := List.mem_filter.mp hx
  have hsome : s.log.findIdx? (fun e => e.id = logId)
      = some (s.log.findIdx (fun e => e.id = logId)) :=
    List.findIdx?_eq_some_of_exists ⟨x, hxmem, hxid⟩
  obtain ⟨hlt, hpi, hbefore⟩ := List.findIdx?_eq_some_iff_getElem.mp hsome
  refine ⟨_, hlt, hsome, by simpa using hpi, ?_, ?_⟩
  · intro j hj
    have := hbefore j hj
    simpa using this
  · simp only [deleteStep, hsome]
    refine ⟨_, rfl, rfl, ?_, rfl⟩
    rw [List.length_eraseIdx_of_lt hlt]
    omega

/-- Witness for C10: a two-entry log whose entries share the id "7". -/
theorem deleteStep_duplicate_id_spec_witness :
    ∃ i, ∃ hi : i < ([⟨"7", "t1", 1, "a"⟩, ⟨"7", "t2", 2, "b"⟩] : List LogEntry).length,
      ([⟨"7", "t1", 1, "a"⟩, ⟨"7", "t2", 2, "b"⟩] : List LogEntry).findIdx?
        (fun e => e.id = "7") = some i ∧
      (([⟨"7", "t1", 1, "a"⟩, ⟨"7", "t2", 2, "b"⟩] : List LogEntry).get ⟨i, hi⟩).id = "7" ∧
      (∀ j (hj : j < i),
        (([⟨"7", "t1", 1, "a"⟩, ⟨"7", "t2", 2, "b"⟩] : List LogEntry).get
          ⟨j, lt_trans hj hi⟩).id ≠ "7") ∧
      ∃ s', deleteStep "7" ⟨2, [⟨"7", "t1", 1, "a"⟩, ⟨"7", "t2", 2, "b"⟩], 7⟩ = (s', .ok s') ∧
        s'.log = ([⟨"7", "t1", 1, "a"⟩, ⟨"7", "t2", 2, "b"⟩] : List LogEntry).eraseIdx i ∧
        s'.log.length + 1 = 2 ∧
        s'.count = s'.log.length :=
  deleteStep_duplicate_id_spec "7" ⟨2, [⟨"7", "t1", 1, "a"⟩, ⟨"7", "t2", 2, "b"⟩], 7⟩ (by decide)

/-! ## C5: failure behaviour of `writeData` -/

theorem append_ne_self (s t : String) (ht : t ≠ "") : s ++ t ≠ s := by
  intro h
  have hlen := congrArg String.length h
  rw [String.length_append] at hlen
  have : t.length = 0 := by omega
  exact ht (by
    cases t with
    | mk data =>
      cases data with
      | nil => rfl
      | cons c cs => simp [String.length, List.length] at this)

theorem append_ne_append (s t u : String) (h : t.length ≠ u.length) :
    s ++ t ≠ s ++ u := by
  intro he
  have := congrArg String.length he
  rw [String.length_append, String.length_append] at this
  omega

theorem valid_check_eq_isNonNullObject (v : JVal) :
    (v.truthy && v.typeofObject) = v.isNonNullObject := by
  cases v <;> simp [JVal.truthy, JVal.typeofObject, JVal.isNonNullObject]

theorem read_cleanupTmp_self (fs : FS) (t : String) :
    (cleanupTmp fs t).read t = none := by
  unfold cleanupTmp
  split
  · simp [FS.read_remove]
  · rename_i h
    simpa using Option.not_isSome_iff_eq_none.mp h

theorem read_cleanupTmp_other (fs : FS) (t m : String) (h : m ≠ t) :
    (cleanupTmp fs t).read m = fs.read m := by
  unfold cleanupTmp
  split
  · simp [FS.read_remove, h]
  · rfl

/-- C5: `writeData` throws the validation error exactly when the given
state is not a non-null object; and whenever it fails — validation error or
injected I/O fault in the backup copy, the temp-file write or the rename —
the temp file is absent afterwards, the failure is surfaced to the caller,
and the canonical document is exactly what it was before the call. -/
theorem writeData_failure_spec (f : Faults) (accessCode : String) (data : JVal)
    (fs : FS) :
    ((writeData f accessCode data fs).2 = .error .invalidState
      ↔ data.isNonNullObject = false) ∧
    (∀ e, (writeData f accessCode data fs).2 = .error e →
      (writeData f accessCode data fs).1.read (dataFileName accessCode ++ ".tmp") = none ∧
      (writeData f accessCode data fs).1.read (dataFileName accessCode)
        = fs.read (dataFileName accessCode)) := by
  have htmp : dataFileName accessCode ++ ".tmp" ≠ dataFileName accessCode :=
    append_ne_self _ _ (by decide)
  have hdt : dataFileName accessCode ≠ dataFileName accessCode ++ ".tmp" :=
    fun h => htmp h.symm
  have hbt : dataFileName accessCode ++ ".backup" ≠ dataFileName accessCode ++ ".tmp" :=
    append_ne_append _ _ _ (by decide)
  have hdb : dataFileName accessCode ≠ dataFileName accessCode ++ ".backup" :=
    fun h => append_ne_self _ _ (by decide) h.symm
  by_cases hv : (data.truthy && data.typeofObject) = true
  · -- validation passes
    have hobj : data.isNonNullObject = true := by
      rw [← valid_check_eq_isNonNullObject, hv]
    rcases hread : fs.read (dataFileName accessCode) with - | current
    · -- no current document
      rcases hw : f.writeTmpFails with - | -
      · rcases hr : f.renameFails with - | -
        · -- success: both implications vacuous / iff holds
          have heq : writeData f accessCode data fs =
              (((fs.write (dataFileName accessCode ++ ".tmp") (.good data)).remove
                  (dataFileName accessCode ++ ".tmp")).write
                (dataFileName accessCode) (.good data), .ok ()) := by
            simp [writeData, hv, hread, hw, hr]
          rw [heq]
          exact ⟨by simp [hobj], fun e he => by simp at he⟩
        · have heq : writeData f accessCode data fs =
              (cleanupTmp (fs.write (dataFileName accessCode ++ ".tmp") (.good data))
                (dataFileName accessCode ++ ".tmp"), .error .ioError) := by
            simp [writeData, hv, hread, hw, hr]
          rw [heq]
          refine ⟨by simp [hobj], fun e _ => ⟨read_cleanupTmp_self _ _, ?_⟩⟩
          rw [read_cleanupTmp_other _ _ _ hdt, FS.read_write, if_neg hdt, hread]
      · have heq : writeData f accessCode data fs =
            (cleanupTmp fs (dataFileName accessCode ++ ".tmp"), .error .ioError) := by
          simp [writeData, hv, hread, hw]
        rw [heq]
        exact ⟨by simp [hobj], fun e _ =>
          ⟨read_cleanupTmp_self _ _, (read_cleanupTmp_other _ _ _ hdt).trans hread⟩⟩
    · -- a current document exists and is backed up first
      rcases hb : f.backupFails with - | -
      · rcases hw : f.writeTmpFails with - | -
        · rcases hr : f.renameFails with - | -
          · have heq : writeData f accessCode data fs =
                ((((fs.write (dataFileName accessCode ++ ".backup") current).write
                    (dataFileName accessCode ++ ".tmp") (.good data)).remove
                    (dataFileName accessCode ++ ".tmp")).write
                  (dataFileName accessCode) (.good data), .ok ()) := by
              simp [writeData, hv, hread, hb, hw, hr]
            rw [heq]
            exact ⟨by simp [hobj], fun e he => by simp at he⟩
          · have heq : writeData f accessCode data fs =
                (cleanupTmp ((fs.write (dataFileName accessCode ++ ".backup") current).write
                  (dataFileName accessCode ++ ".tmp") (.good data))
                  (dataFileName accessCode ++ ".tmp"), .error .ioError) := by
              simp [writeData, hv, hread, hb, hw, hr]
            rw [heq]
            refine ⟨by simp [hobj], fun e _ => ⟨read_cleanupTmp_self _ _, ?_⟩⟩
            rw [read_cleanupTmp_other _ _ _ hdt, FS.read_write, if_neg hdt,
              FS.read_write, if_neg hdb, hread]
        · have heq : writeData f accessCode data fs =
              (cleanupTmp (fs.write (dataFileName accessCode ++ ".backup") current)
                (dataFileName accessCode ++ ".tmp"), .error .ioError) := by
            simp [writeData, hv, hread, hb, hw]
          rw [heq]
          refine ⟨by simp [hobj], fun e _ => ⟨read_cleanupTmp_self _ _, ?_⟩⟩
          rw [read_cleanupTmp_other _ _ _ hdt, FS.read_write, if_neg hdb, hread]
      · have heq : writeData f accessCode data fs =
            (cleanupTmp fs (dataFileName accessCode ++ ".tmp"), .error .ioError) := by
          simp [writeData, hv, hread, hb]
        rw [heq]
        exact ⟨by simp [hobj], fun e _ =>
          ⟨read_cleanupTmp_self _ _, (read_cleanupTmp_other _ _ _ hdt).trans hread⟩⟩
  · -- validation fails: the `InvalidState` throw
    have hobj : data.isNonNullObject = false := by
      rw [← valid_check_eq_isNonNullObject]
      simpa using hv
    have heq : writeData f accessCode data fs =
        (cleanupTmp fs (dataFileName accessCode ++ ".tmp"), .error .invalidState) := by
      simp [writeData, hv]
    rw [heq]
    exact ⟨by simp [hobj], fun e _ =>
      ⟨read_cleanupTmp_self _ _, read_cleanupTmp_other _ _ _ hdt⟩⟩

/-- Witness for C5: persisting the number `3` (not an object) fails with
the validation error and leaves the canonical document alone. -/
theorem writeData_failure_spec_witness :
    ((writeData noFaults "room" (.jnum 3) []).2 = .error .invalidState
      ↔ (JVal.jnum 3).isNonNullObject = false) ∧
    ((writeData noFaults "room" (.jnum 3) []).2 = .error .invalidState →
      (writeData noFaults "room" (.jnum 3) []).1.read (dataFileName "room" ++ ".tmp") = none ∧
      (writeData noFaults "room" (.jnum 3) []).1.read (dataFileName "room")
        = FS.read [] (dataFileName "room")) :=
  ⟨(writeData_failure_spec noFaults "room" (.jnum 3) []).1,
   (writeData_failure_spec noFaults "room" (.jnum 3) []).2 .invalidState⟩

/-! ## C6: recovery from backup -/

theorem writeData_noFaults_ok (a : String) (v : JVal) (fs : FS)
    (hv : (v.truthy && v.typeofObject) = true) :
    (writeData noFaults a v fs).2 = .ok () ∧
    (writeData noFaults a v fs).1.read (dataFileName a) = some (.good v) := by
  rcases hread : fs.read (dataFileName a) with - | current
  · have heq : writeData noFaults a v fs =
        (((fs.write (dataFileName a ++ ".tmp") (.good v)).remove
            (dataFileName a ++ ".tmp")).write (dataFileName a) (.good v), .ok ()) := by
      simp [writeData, hv, hread, noFaults]
    rw [heq]
    exact ⟨rfl, by rw [FS.read_write, if_pos rfl]⟩
  · have heq : writeData noFaults a v fs =
        ((((fs.write (dataFileName a ++ ".backup") current).write
            (dataFileName a ++ ".tmp") (.good v)).remove
            (dataFileName a ++ ".tmp")).write (dataFileName a) (.good v), .ok ()) := by
      simp [writeData, hv, hread, noFaults]
    rw [heq]
    exact ⟨rfl, by rw [FS.read_write, if_pos rfl]⟩

theorem initializeData_noFaults_ok (a : String) (fs : FS) :
    (initializeData noFaults a fs).2 = .ok (initialDoc a) := by
  have h := (writeData_noFaults_ok a (initialDoc a) fs (by rfl)).1
  rcases hw : writeData noFaults a (initialDoc a) fs with ⟨fs', r⟩
  rw [hw] at h
  simp only at h
  subst h
  simp [initializeData, hw]

/-- Counterexample to C6 as stated: a corrupt primary document next to a
backup holding the JSON document `null`. The backup is parseable, yet Load
does not return its contents — the `if (backupData)` guard discards the
falsy parse result and Load reinitialises the room instead. -/
theorem corrupt_primary_falsy_backup_not_returned :
    (readData noFaults "r"
      [(dataFileName "r", .corrupt),
       (dataFileName "r" ++ ".backup", .good .jnull)]).2
      = .ok (initialDoc "r") ∧
    (Except.ok (initialDoc "r") : Except WriteError JVal) ≠ .ok .jnull := by
  constructor
  · have hprimary : FS.read
        [(dataFileName "r", .corrupt), (dataFileName "r" ++ ".backup", .good .jnull)]
        (dataFileName "r") = some .corrupt := by
      simp [FS.read]
    have hdb : dataFileName "r" ≠ dataFileName "r" ++ ".backup" :=
      fun h => append_ne_self _ _ (by decide) h.symm
    have hbackup : FS.read
        [(dataFileName "r", .corrupt), (dataFileName "r" ++ ".backup", .good .jnull)]
        (dataFileName "r" ++ ".backup") = some (.good .jnull) := by
      simp [FS.read, hdb]
    have hrestore : tryRestoreFromBackup "r"
        [(dataFileName "r", .corrupt), (dataFileName "r" ++ ".backup", .good .jnull)]
        = some .jnull := by
      unfold tryRestoreFromBackup
      rw [hbackup]
    simp only [readData, readDataTry, hprimary, hrestore, JVal.truthy,
      Bool.false_eq_true, if_false]
    exact initializeData_noFaults_ok "r" _
  · intro h
    simp only [Except.ok.injEq, initialDoc] at h
    exact JVal.noConfusion h

/-- C6 amended: when the primary document is unreadable or unparseable and
a parseable backup exists whose parsed value is truthy (any JSON document
other than `null`, `0`, `""` or `false` — in particular any object), Load
returns exactly the parsed backup contents without touching the store;
when the backup is absent, unparseable, or parses to a falsy value, Load
falls back to the freshly-initialized state. -/
theorem readData_backup_recovery :
    (∀ (f : Faults) (accessCode : String) (fs : FS) (b : JVal),
      fs.read (dataFileName accessCode) = some .corrupt →
      fs.read (dataFileName accessCode ++ ".backup") = some (.good b) →
      b.truthy = true →
      readData f accessCode fs = (fs, .ok b)) ∧
    (∀ (accessCode : String) (fs : FS),
      fs.read (dataFileName accessCode) = some .corrupt →
      (∀ b, fs.read (dataFileName accessCode ++ ".backup") = some (.good b) →
        b.truthy = false) →
      (readData noFaults accessCode fs).2 = .ok (initialDoc accessCode)) := by
  constructor
  · intro f accessCode fs b hprimary hbackup htruthy
    simp only [readData, readDataTry, hprimary, tryRestoreFromBackup, hbackup,
      htruthy, if_true]
  · intro accessCode fs hprimary hnb
    rcases hb : fs.read (dataFileName accessCode ++ ".backup") with - | c
    · have hrestore : tryRestoreFromBackup accessCode fs = none := by
        unfold tryRestoreFromBackup
        rw [hb]
      simp only [readData, readDataTry, hprimary, hrestore]
      exact initializeData_noFaults_ok accessCode fs
    · cases c with
      | corrupt =>
        have hrestore : tryRestoreFromBackup accessCode fs = none := by
          unfold tryRestoreFromBackup
          rw [hb]
        simp only [readData, readDataTry, hprimary, hrestore]
        exact initializeData_noFaults_ok accessCode fs
      | good b =>
        have hrestore : tryRestoreFromBackup accessCode fs = some b := by
          unfold tryRestoreFromBackup
          rw [hb]
        have hf : b.truthy = false := hnb b hb
        simp only [readData, readDataTry, hprimary, hrestore, hf,
          Bool.false_eq_true, if_false]
        exact initializeData_noFaults_ok accessCode fs

/-- Witness for the amended C6: a store whose primary is corrupt but whose
backup holds the (truthy) document `{count: 2}`, and a store with both
documents corrupt. -/
theorem readData_backup_recovery_witness :
    readData noFaults "r"
      [(dataFileName "r", .corrupt),
       (dataFileName "r" ++ ".backup", .good (.jobj [("count", .jnum 2)]))]
      = ([(dataFileName "r", .corrupt),
          (dataFileName "r" ++ ".backup", .good (.jobj [("count", .jnum 2)]))],
        .ok (.jobj [("count", .jnum 2)])) ∧
    (readData noFaults "r"
      [(dataFileName "r", .corrupt), (dataFileName "r" ++ ".backup", .corrupt)]).2
      = .ok (initialDoc "r") := by
  constructor
  · refine readData_backup_recovery.1 noFaults "r" _ _ ?_ ?_ rfl
    · show FS.read _ _ = _
      simp [FS.read]
    · show FS.read _ _ = _
      have : dataFileName "r" ≠ dataFileName "r" ++ ".backup" :=
        fun h => append_ne_self _ _ (by decide) h.symm
      simp [FS.read, this]
  · refine readData_backup_recovery.2 "r" _ ?_ ?_
    · show FS.read _ _ = _
      simp [FS.read]
    · intro b hb
      have : dataFileName "r" ≠ dataFileName "r" ++ ".backup" :=
        fun h => append_ne_self _ _ (by decide) h.symm
      rw [show FS.read
          [(dataFileName "r", JContent.corrupt), (dataFileName "r" ++ ".backup", .corrupt)]
          (dataFileName "r" ++ ".backup") = some .corrupt by simp [FS.read, this]] at hb
      cases hb

/-! ## C7: field-by-field repair on load -/

theorem lookupField_setFields (fields : List (String × JVal)) (n : String)
    (w : JVal) (m : String) :
    lookupField (setFields fields n w) m
      = if m = n then some w else lookupField fields m := by
  induction fields with
  | nil =>
    by_cases hmn : m = n
    · subst hmn
      simp [setFields, lookupField]
    · have hnm : ¬ n = m := fun h => hmn h.symm
      simp [setFields, lookupField, hmn, hnm]
  | cons p rest ih =>
    obtain ⟨k, v⟩ := p
    by_cases hkn : k = n
    · subst hkn
      by_cases hkm : k = m
      · subst hkm
        simp [setFields, lookupField]
      · have hmk : ¬ m = k := fun h => hkm h.symm
        simp [setFields, lookupField, hkm, hmk]
    · by_cases hkm : k = m
      · subst hkm
        simp [setFields, lookupField, hkn]
      · simp [setFields, lookupField, hkn, hkm, ih]

theorem getField_jobj_setFields (fields : List (String × JVal)) (n : String)
    (w : JVal) (m : String) :
    (JVal.jobj (setFields fields n w)).getField m
      = if m = n then w else (JVal.jobj fields).getField m := by
  simp only [JVal.getField, lookupField_setFields]
  by_cases hmn : m = n <;> simp [hmn]

theorem setField_jobj (fields : List (String × JVal)) (n : String) (w : JVal) :
    (JVal.jobj fields).setField n w = JVal.jobj (setFields fields n w) := rfl

theorem getField_coerceField_jobj (fields : List (String × JVal)) (name : String)
    (ok : JVal → Bool) (dflt : JVal) (m : String) :
    (coerceField (.jobj fields) name ok dflt).getField m =
      if m = name then
        (if ok ((JVal.jobj fields).getField name) then (JVal.jobj fields).getField name
         else dflt)
      else (JVal.jobj fields).getField m := by
  unfold coerceField
  split <;> rename_i hok
  · rw [setField_jobj, getField_jobj_setFields]
  · have hok' : ok ((JVal.jobj fields).getField name) = true := by simpa using hok
    by_cases hm : m = name <;> simp [hm, hok']

theorem coerceField_jobj (fields : List (String × JVal)) (name : String)
    (ok : JVal → Bool) (dflt : JVal) :
    ∃ fields', coerceField (.jobj fields) name ok dflt = .jobj fields' := by
  unfold coerceField
  split
  · exact ⟨_, rfl⟩
  · exact ⟨_, rfl⟩

/-- Full characterisation of the repair pass on an object document: each of
the five required fields is kept when well-typed and replaced by its
default otherwise, every other field is untouched. -/
theorem coerceFields_getField (a : String) (fields : List (String × JVal)) (m : String) :
    (coerceFields a (.jobj fields)).getField m =
      if m = "accessCode" then
        (if ((JVal.jobj fields).getField "accessCode").isStr
         then (JVal.jobj fields).getField "accessCode" else .jstr a)
      else if m = "pushSubscriptions" then
        (if ((JVal.jobj fields).getField "pushSubscriptions").isArr
         then (JVal.jobj fields).getField "pushSubscriptions" else .jarr [])
      else if m = "lastIncrementTime" then
        (if ((JVal.jobj fields).getField "lastIncrementTime").isNum
         then (JVal.jobj fields).getField "lastIncrementTime" else .jnum 0)
      else if m = "log" then
        (if ((JVal.jobj fields).getField "log").isArr
         then (JVal.jobj fields).getField "log" else .jarr [])
      else if m = "count" then
        (if ((JVal.jobj fields).getField "count").isNum
         then (JVal.jobj fields).getField "count" else .jnum 0)
      else (JVal.jobj fields).getField m := by
  obtain ⟨f1, h1⟩ := coerceField_jobj fields "count" JVal.isNum (.jnum 0)
  obtain ⟨f2, h2⟩ := coerceField_jobj f1 "log" JVal.isArr (.jarr [])
  obtain ⟨f3, h3⟩ := coerceField_jobj f2 "lastIncrementTime" JVal.isNum (.jnum 0)
  obtain ⟨f4, h4⟩ := coerceField_jobj f3 "pushSubscriptions" JVal.isArr (.jarr [])
  have e1 : ∀ m', (JVal.jobj f1).getField m' =
      if m' = "count" then
        (if ((JVal.jobj fields).getField "count").isNum
         then (JVal.jobj fields).getField "count" else .jnum 0)
      else (JVal.jobj fields).getField m' := fun m' => by
    rw [← h1]
    exact getField_coerceField_jobj fields "count" JVal.isNum (.jnum 0) m'
  have e2 : ∀ m', (JVal.jobj f2).getField m' =
      if m' = "log" then
        (if ((JVal.jobj f1).getField "log").isArr
         then (JVal.jobj f1).getField "log" else .jarr [])
      else (JVal.jobj f1).getField m' := fun m' => by
    rw [← h2]
    exact getField_coerceField_jobj f1 "log" JVal.isArr (.jarr []) m'
  have e3 : ∀ m', (JVal.jobj f3).getField m' =
      if m' = "lastIncrementTime" then
        (if ((JVal.jobj f2).getField "lastIncrementTime").isNum
         then (JVal.jobj f2).getField "lastIncrementTime" else .jnum 0)
      else (JVal.jobj f2).getField m' := fun m' => by
    rw [← h3]
    exact getField_coerceField_jobj f2 "lastIncrementTime" JVal.isNum (.jnum 0) m'
  have e4 : ∀ m', (JVal.jobj f4).getField m' =
      if m' = "pushSubscriptions" then
        (if ((JVal.jobj f3).getField "pushSubscriptions").isArr
         then (JVal.jobj f3).getField "pushSubscriptions" else .jarr [])
      else (JVal.jobj f3).getField m' := fun m' => by
    rw [← h4]
    exact getField_coerceField_jobj f3 "pushSubscriptions" JVal.isArr (.jarr []) m'
  rw [coerceFields, h1, h2, h3, h4, getField_coerceField_jobj]
  simp only [e4, e3, e2, e1]
  simp

theorem readData_of_good_jobj (f : Faults) (a : String) (fs : FS)
    (fields : List (String × JVal))
    (hread : fs.read (dataFileName a) = some (.good (.jobj fields))) :
    readData f a fs = (fs, .ok (coerceFields a (.jobj fields))) := by
  have hchk : ¬ ((JVal.jobj fields).truthy && (JVal.jobj fields).typeofObject) = false := by
    simp [JVal.truthy, JVal.typeofObject]
  simp [readData, readDataTry, hread, hchk]

/-- C7: loading a parseable object document repairs exactly the ill-typed
required fields (each replaced by its default, independently), keeps the
well-typed required fields, and preserves every other field; in particular
a document `{count: "5", log: null}` loads as count 0, empty log and
lastIncrementTime 0. -/
theorem readData_field_coercion :
    (∀ (f : Faults) (a : String) (fs : FS) (fields : List (String × JVal)),
      fs.read (dataFileName a) = some (.good (.jobj fields)) →
      ∃ v, readData f a fs = (fs, .ok v) ∧
        v.getField "count" = (if ((JVal.jobj fields).getField "count").isNum
          then (JVal.jobj fields).getField "count" else .jnum 0) ∧
        v.getField "log" = (if ((JVal.jobj fields).getField "log").isArr
          then (JVal.jobj fields).getField "log" else .jarr []) ∧
        v.getField "lastIncrementTime"
          = (if ((JVal.jobj fields).getField "lastIncrementTime").isNum
            then (JVal.jobj fields).getField "lastIncrementTime" else .jnum 0) ∧
        v.getField "pushSubscriptions"
          = (if ((JVal.jobj fields).getField "pushSubscriptions").isArr
            then (JVal.jobj fields).getField "pushSubscriptions" else .jarr []) ∧
        v.getField "accessCode" = (if ((JVal.jobj fields).getField "accessCode").isStr
          then (JVal.jobj fields).getField "accessCode" else .jstr a) ∧
        (∀ m, m ≠ "count" → m ≠ "log" → m ≠ "lastIncrementTime" →
          m ≠ "pushSubscriptions" → m ≠ "accessCode" →
          v.getField m = (JVal.jobj fields).getField m)) ∧
    (∀ f : Faults, ∃ v, readData f "room"
        [(dataFileName "room", .good (.jobj [("count", .jstr "5"), ("log", .jnull)]))]
        = ([(dataFileName "room", .good (.jobj [("count", .jstr "5"), ("log", .jnull)]))],
          .ok v) ∧
      v.getField "count" = .jnum 0 ∧ v.getField "log" = .jarr [] ∧
      v.getField "lastIncrementTime" = .jnum 0) := by
  constructor
  · intro f a fs fields hread
    refine ⟨coerceFields a (.jobj fields), readData_of_good_jobj f a fs fields hread,
      ?_, ?_, ?_, ?_, ?_, ?_⟩
    · rw [coerceFields_getField]
      simp
    · rw [coerceFields_getField]
      simp
    · rw [coerceFields_getField]
      simp
    · rw [coerceFields_getField]
      simp
    · rw [coerceFields_getField]
      simp
    · intro m h1 h2 h3 h4 h5
      rw [coerceFields_getField]
      simp [h1, h2, h3, h4, h5]
  · intro f
    exact ⟨coerceFields "room" (.jobj [("count", .jstr "5"), ("log", .jnull)]),
      readData_of_good_jobj f "room" _ _ (by simp [FS.read]), rfl, rfl, rfl⟩

/-- Witness for C7: a store holding the object document `{count: 7}` for
room "w". -/
theorem readData_field_coercion_witness :
    ∃ v, readData noFaults "w"
        [(dataFileName "w", .good (.jobj [("count", .jnum 7)]))]
        = ([(dataFileName "w", .good (.jobj [("count", .jnum 7)]))], .ok v) ∧
      v.getField "count"
        = (if ((JVal.jobj [("count", .jnum 7)]).getField "count").isNum
          then (JVal.jobj [("count", .jnum 7)]).getField "count" else .jnum 0) ∧
      v.getField "log"
        = (if ((JVal.jobj [("count", .jnum 7)]).getField "log").isArr
          then (JVal.jobj [("count", .jnum 7)]).getField "log" else .jarr []) ∧
      v.getField "lastIncrementTime"
        = (if ((JVal.jobj [("count", .jnum 7)]).getField "lastIncrementTime").isNum
          then (JVal.jobj [("count", .jnum 7)]).getField "lastIncrementTime" else .jnum 0) ∧
      v.getField "pushSubscriptions"
        = (if ((JVal.jobj [("count", .jnum 7)]).getField "pushSubscriptions").isArr
          then (JVal.jobj [("count", .jnum 7)]).getField "pushSubscriptions" else .jarr []) ∧
      v.getField "accessCode"
        = (if ((JVal.jobj [("count", .jnum 7)]).getField "accessCode").isStr
          then (JVal.jobj [("count", .jnum 7)]).getField "accessCode" else .jstr "w") ∧
      (∀ m, m ≠ "count" → m ≠ "log" → m ≠ "lastIncrementTime" →
        m ≠ "pushSubscriptions" → m ≠ "accessCode" →
        v.getField m = (JVal.jobj [("count", .jnum 7)]).getField m) :=
  readData_field_coercion.1 noFaults "w"
    [(dataFileName "w", .good (.jobj [("count", .jnum 7)]))]
    [("count", .jnum 7)] (by simp [FS.read])

/-! ## C8: persist/load round trip -/

theorem coerceFields_of_valid (a : String) (v : JVal)
    (hv : isValidRoomDoc v = true) : coerceFields a v = v := by
  cases v with
  | jobj fields =>
    have h := hv
    simp only [isValidRoomDoc, Bool.and_eq_true] at h
    obtain ⟨⟨⟨⟨h1, h2⟩, h3⟩, h4⟩, h5⟩ := h
    simp [coerceFields, coerceField, h1, h2, h3, h4, h5]
  | jnull => simp [isValidRoomDoc] at hv
  | jundef => simp [isValidRoomDoc] at hv
  | jbool b => simp [isValidRoomDoc] at hv
  | jnum n => simp [isValidRoomDoc] at hv
  | jstr s => simp [isValidRoomDoc] at hv
  | jarr l => simp [isValidRoomDoc] at hv

/-- C8: persisting a well-typed room document and then loading the same
room yields exactly the persisted document (field-for-field, here as full
structural equality). -/
theorem persist_load_roundtrip (a : String) (v : JVal) (fs : FS)
    (hv : isValidRoomDoc v = true) :
    ∃ fs', writeData noFaults a v fs = (fs', .ok ()) ∧
      readData noFaults a fs' = (fs', .ok v) := by
  obtain ⟨fields, rfl⟩ : ∃ fields, v = .jobj fields := by
    cases v <;> simp_all [isValidRoomDoc]
  have hchk : ((JVal.jobj fields).truthy && (JVal.jobj fields).typeofObject) = true := by
    simp [JVal.truthy, JVal.typeofObject]
  obtain ⟨hok, hrd⟩ := writeData_noFaults_ok a (.jobj fields) fs hchk
  refine ⟨(writeData noFaults a (.jobj fields) fs).1, ?_, ?_⟩
  · rcases hw : writeData noFaults a (.jobj fields) fs with ⟨fs', r⟩
    rw [hw] at hok
    simp only at hok
    rw [hok]
  · rw [readData_of_good_jobj noFaults a _ fields hrd, coerceFields_of_valid a _ hv]

/-- Witness for C8: round-tripping the fresh document of room "r" through
an empty store. -/
theorem persist_load_roundtrip_witness :
    ∃ fs', writeData noFaults "r" (initialDoc "r") [] = (fs', .ok ()) ∧
      readData noFaults "r" fs' = (fs', .ok (initialDoc "r")) :=
  persist_load_roundtrip "r" (initialDoc "r") [] (by rfl)

end SnackCounter
